import Mathlib

/-!
# Verification of the netbox2netshot reconciliation core

Shallow embedding of `src/main.rs`: the inventory normalizers
(`netshot_simplified_inventory`, `netbox_simplified_devices`), the
reconciliation loops (`devices_to_register` / `devices_to_disable`) and the
apply phase (the `if !opt.check` block), together with proofs of the
specified properties.

Rust `HashMap` values are modelled as association lists with key-unique
insertion (`hmInsert`): inserting an existing key replaces its value in
place, a new key is appended.  `collect` on an iterator of pairs is the
left fold of `hmInsert` (`collectHM`), which matches `HashMap::from_iter`:
later pairs overwrite earlier ones.  Lookup (`hmGet`) returns the first
entry with a matching key (keys are unique after `collectHM`, so this
agrees with `HashMap::get`).  Iteration order of a `HashMap` is arbitrary;
properties about the produced `Vec`s are therefore stated up to membership
or permutation where the claims are set-level.
-/

set_option autoImplicit false

namespace Netbox2Netshot

/-- Netbox nested IP object: `primary_ip4` carries an `address` string
(possibly CIDR-suffixed, e.g. `"10.0.0.1/24"`). -/
structure NetboxIp where
  address : String
  deriving Repr, DecidableEq

/-- Netbox device record, the fields `main.rs` reads: numeric `id`,
optional `name`, optional `primary_ip4`. -/
structure NetboxDevice where
  id : Nat
  name : Option String
  primary_ip4 : Option NetboxIp
  deriving Repr, DecidableEq

/-- Netshot nested management-address object with its `ip` string. -/
structure NetshotManagementAddress where
  ip : String
  deriving Repr, DecidableEq

/-- Netshot device record, the fields `main.rs` reads: `name` and
`management_address` (both always present in the Netshot schema). -/
structure NetshotDevice where
  name : String
  management_address : NetshotManagementAddress
  deriving Repr, DecidableEq

/-- A simplified inventory: the `HashMap<String, String>` from bare IP to
display name, represented as a key-unique association list. -/
abbrev Inventory := List (String × String)

/-- `HashMap::insert` semantics on the association-list model: replace the
value of an existing key in place, append a fresh key. -/
def hmInsert (m : Inventory) (k v : String) : Inventory :=
  if m.any (fun p => p.1 = k) then
    m.map (fun p => if p.1 = k then (k, v) else p)
  else
    m ++ [(k, v)]

/-- `HashMap::get` on the model: first entry with a matching key. -/
def hmGet : Inventory → String → Option String
  | [], _ => none
  | (k, v) :: rest, key => if k = key then some v else hmGet rest key

/-- `collect::<HashMap<_,_>>()` over an iterator of pairs: left fold of
insertion, so a later pair with the same key overwrites an earlier one. -/
def collectHM (l : List (String × String)) : Inventory :=
  l.foldl (fun m kv => hmInsert m kv.1 kv.2) []

/-- `ip` is a key of the inventory. -/
def isKey (m : Inventory) (ip : String) : Prop :=
  (hmGet m ip).isSome = true

instance (m : Inventory) (ip : String) : Decidable (isKey m ip) := by
  unfold isKey; infer_instance

/-- The characters of `address.split("/").next().unwrap()`: the prefix of
the character list before the first `'/'` (Rust's `split` always yields at
least one, possibly empty, segment, so `next().unwrap()` never panics and
returns exactly this prefix). -/
def firstSegmentChars : List Char → List Char
  | [] => []
  | c :: rest => if c = '/' then [] else c :: firstSegmentChars rest

/-- `address.split("/").next().unwrap().to_owned()` from line 145 of
`main.rs`: the segment of the address before the first `'/'`. -/
def firstSegment (s : String) : String :=
  ⟨firstSegmentChars s.data⟩

/-- `device.name.unwrap_or(device.id.to_string())`: the label used both for
kept records and in the skip warning (lines 146 and 151 of `main.rs`). -/
def netboxLabel (d : NetboxDevice) : String :=
  d.name.getD (toString d.id)

/-- The pair contributed by a Netbox device, `none` when the record is
skipped: the `filter_map` closure of lines 143-155 of `main.rs` (without the
logging side effect, modelled separately by `netboxWarnings`). -/
def netboxPair (device : NetboxDevice) : Option (String × String) :=
  match device.primary_ip4 with
  | some x => some (firstSegment x.address, netboxLabel device)
  | none => none

/-- `netbox_simplified_devices` (lines 141-156 of `main.rs`): filter-map
each device to its `(bare ip, label)` pair and collect into a `HashMap`. -/
def netboxSimplifiedDevices (devs : List NetboxDevice) : Inventory :=
  collectHM (devs.filterMap netboxPair)

/-- The labels named by the `log::warn!("Device {} is missing its primary IP
address, skipping it", ...)` calls of lines 149-152 of `main.rs`: one per
device whose `primary_ip4` is `None`, identifying it by
`name.unwrap_or(id.to_string())`. -/
def netboxWarnings (devs : List NetboxDevice) : List String :=
  devs.filterMap (fun device =>
    match device.primary_ip4 with
    | some _ => none
    | none => some (netboxLabel device))

/-- `netshot_simplified_inventory` (lines 125-128 of `main.rs`): map each
device to `(management_address.ip, name)` and collect into a `HashMap`. -/
def netshotSimplifiedInventory (devs : List NetshotDevice) : Inventory :=
  collectHM (devs.map (fun dev => (dev.management_address.ip, dev.name)))

/-- The `devices_to_register` loop (lines 166-175 of `main.rs`): for each
`(ip, hostname)` of the Netbox inventory, push `ip` when
`netshot_simplified_inventory.get(ip)` is `None`. -/
def devicesToRegister (netbox netshot : Inventory) : List String :=
  netbox.filterMap (fun p =>
    match hmGet netshot p.1 with
    | some _ => none
    | none => some p.1)

/-- The `devices_to_disable` loop (lines 177-186 of `main.rs`): for each
`(ip, hostname)` of the Netshot inventory, push `ip` when
`netbox_simplified_devices.get(ip)` is `None`. -/
def devicesToDisable (netbox netshot : Inventory) : List String :=
  netshot.filterMap (fun p =>
    match hmGet netbox p.1 with
    | some _ => none
    | none => some p.1)

/-! ## Helper lemmas on the `HashMap` model -/

theorem hmGet_isSome_iff (m : Inventory) (key : String) :
    (hmGet m key).isSome = true ↔ ∃ v, (key, v) ∈ m := by
  induction m with
  | nil => simp [hmGet]
  | cons p rest ih =>
    obtain ⟨k, v⟩ := p
    by_cases h : k = key
    · subst h
      simp [hmGet]
    · simp only [hmGet, if_neg h, ih, List.mem_cons]
      constructor
      · rintro ⟨w, hw⟩; exact ⟨w, Or.inr hw⟩
      · rintro ⟨w, hw | hw⟩
        · cases hw; exact absurd rfl h
        · exact ⟨w, hw⟩

theorem hmGet_eq_none_iff (m : Inventory) (key : String) :
    hmGet m key = none ↔ ∀ v, (key, v) ∉ m := by
  rw [← Option.not_isSome_iff_eq_none]
  simp only [hmGet_isSome_iff]
  push_neg
  exact Iff.rfl

theorem isKey_iff (m : Inventory) (key : String) :
    isKey m key ↔ ∃ v, (key, v) ∈ m :=
  hmGet_isSome_iff m key

theorem mem_devicesToRegister (nb ns : Inventory) (ip : String) :
    ip ∈ devicesToRegister nb ns ↔ (∃ v, (ip, v) ∈ nb) ∧ hmGet ns ip = none := by
  unfold devicesToRegister
  rw [List.mem_filterMap]
  constructor
  · rintro ⟨⟨k, v⟩, hmem, hcond⟩
    cases hg : hmGet ns k with
    | some w => rw [hg] at hcond; simp at hcond
    | none =>
      rw [hg] at hcond
      simp only [Option.some.injEq] at hcond
      subst hcond
      exact ⟨⟨v, hmem⟩, hg⟩
  · rintro ⟨⟨v, hmem⟩, hnone⟩
    refine ⟨(ip, v), hmem, ?_⟩
    rw [hnone]

theorem mem_devicesToDisable (nb ns : Inventory) (ip : String) :
    ip ∈ devicesToDisable nb ns ↔ (∃ v, (ip, v) ∈ ns) ∧ hmGet nb ip = none := by
  unfold devicesToDisable
  rw [List.mem_filterMap]
  constructor
  · rintro ⟨⟨k, v⟩, hmem, hcond⟩
    cases hg : hmGet nb k with
    | some w => rw [hg] at hcond; simp at hcond
    | none =>
      rw [hg] at hcond
      simp only [Option.some.injEq] at hcond
      subst hcond
      exact ⟨⟨v, hmem⟩, hg⟩
  · rintro ⟨⟨v, hmem⟩, hnone⟩
    refine ⟨(ip, v), hmem, ?_⟩
    rw [hnone]

theorem firstSegmentChars_of_not_mem (l : List Char) (h : '/' ∉ l) :
    firstSegmentChars l = l := by
  induction l with
  | nil => rfl
  | cons c rest ih =>
    simp only [List.mem_cons, not_or] at h
    simp only [firstSegmentChars, if_neg (Ne.symm h.1)]
    rw [ih h.2]

theorem mem_hmInsert (m : Inventory) (k v : String) (p : String × String)
    (h : p ∈ hmInsert m k v) : p ∈ m ∨ p = (k, v) := by
  unfold hmInsert at h
  by_cases hany : m.any (fun p => p.1 = k)
  · rw [if_pos hany] at h
    rw [List.mem_map] at h
    obtain ⟨q, hq, hpq⟩ := h
    by_cases hk : q.1 = k
    · rw [if_pos hk] at hpq; right; exact hpq.symm
    · rw [if_neg hk] at hpq; left; rw [← hpq]; exact hq
  · rw [if_neg hany] at h
    rw [List.mem_append, List.mem_singleton] at h
    exact h

theorem mem_collectHM (l : List (String × String)) (p : String × String)
    (h : p ∈ collectHM l) : p ∈ l := by
  suffices H : ∀ (acc : Inventory), p ∈ l.foldl (fun m kv => hmInsert m kv.1 kv.2) acc →
      p ∈ acc ∨ p ∈ l by
    rcases H [] h with h' | h'
    · exact absurd h' (List.not_mem_nil p)
    · exact h'
  clear h
  induction l with
  | nil => intro acc h; exact Or.inl h
  | cons q rest ih =>
    intro acc h
    rcases ih (hmInsert acc q.1 q.2) h with h' | h'
    · rcases mem_hmInsert acc q.1 q.2 p h' with h'' | h''
      · exact Or.inl h''
      · right; rw [h'']; exact List.mem_cons_self (q.1, q.2) rest
    · right; exact List.mem_cons_of_mem q h'

theorem hmGet_hmInsert_self (m : Inventory) (k v : String) :
    hmGet (hmInsert m k v) k = some v := by
  unfold hmInsert
  by_cases hany : m.any (fun p => p.1 = k)
  · rw [if_pos hany]
    rw [List.any_eq_true] at hany
    obtain ⟨q, hq, hqk⟩ := hany
    rw [decide_eq_true_iff] at hqk
    induction m with
    | nil => exact absurd hq (List.not_mem_nil q)
    | cons r rest ih =>
      obtain ⟨rk, rv⟩ := r
      rw [List.mem_cons] at hq
      rw [List.map_cons]
      by_cases hr : (rk, rv).1 = k
      · rw [if_pos hr]
        show (if k = k then some v else _) = some v
        rw [if_pos rfl]
      · rw [if_neg hr]
        show (if rk = k then some rv else
          hmGet (rest.map (fun p => if p.1 = k then (k, v) else p)) k) = some v
        rw [if_neg hr]
        rcases hq with hq | hq
        · rw [hq] at hqk; exact absurd hqk hr
        · exact ih hq
  · rw [if_neg hany]
    rw [List.any_eq_true] at hany
    push_neg at hany
    induction m with
    | nil => simp [hmGet]
    | cons r rest ih =>
      have hr : ¬ r.1 = k := by
        have := hany r (List.mem_cons_self r rest)
        simpa using this
      simp only [List.cons_append, hmGet, if_neg hr]
      exact ih (fun q hq => hany q (List.mem_cons_of_mem r hq))

theorem collectHM_append_single (l : List (String × String)) (k v : String) :
    collectHM (l ++ [(k, v)]) = hmInsert (collectHM l) k v := by
  unfold collectHM
  rw [List.foldl_append]
  rfl

theorem hmGet_hmInsert_ne (m : Inventory) (a b k : String) (hak : a ≠ k) :
    hmGet (hmInsert m a b) k = hmGet m k := by
  unfold hmInsert
  by_cases hany : m.any (fun p => p.1 = a)
  · rw [if_pos hany]
    clear hany
    induction m with
    | nil => rfl
    | cons r rest ih =>
      obtain ⟨rk, rv⟩ := r
      rw [List.map_cons]
      by_cases hra : (rk, rv).1 = a
      · rw [if_pos hra]
        show (if a = k then some b else _) = (if rk = k then some rv else hmGet rest k)
        rw [if_neg hak, if_neg (by rw [show rk = a from hra]; exact hak)]
        exact ih
      · rw [if_neg hra]
        show (if rk = k then some rv else _) = (if rk = k then some rv else hmGet rest k)
        by_cases hrk : rk = k
        · rw [if_pos hrk, if_pos hrk]
        · rw [if_neg hrk, if_neg hrk]
          exact ih
  · rw [if_neg hany]
    clear hany
    induction m with
    | nil =>
      show (if a = k then some b else hmGet [] k) = hmGet [] k
      rw [if_neg hak]
    | cons r rest ih =>
      obtain ⟨rk, rv⟩ := r
      show (if rk = k then some rv else hmGet (rest ++ [(a, b)]) k)
          = (if rk = k then some rv else hmGet rest k)
      by_cases hrk : rk = k
      · rw [if_pos hrk, if_pos hrk]
      · rw [if_neg hrk, if_neg hrk]
        exact ih

/-- Full characterization of the collected `HashMap`: lookup returns the
value of the LAST pair of the iterator with the given key (later inserts
overwrite earlier ones). -/
theorem hmGet_collectHM (l : List (String × String)) (k : String) :
    hmGet (collectHM l) k = hmGet l.reverse k := by
  induction l using List.reverseRecOn with
  | nil => rfl
  | append_singleton l' p ih =>
    obtain ⟨a, b⟩ := p
    rw [collectHM_append_single]
    simp only [List.reverse_append, List.reverse_singleton, List.singleton_append]
    by_cases hak : a = k
    · subst hak
      rw [hmGet_hmInsert_self]
      show some b = (if a = a then some b else hmGet l'.reverse a)
      rw [if_pos rfl]
    · rw [hmGet_hmInsert_ne _ _ _ _ hak, ih]
      show hmGet l'.reverse k = (if a = k then some b else hmGet l'.reverse k)
      rw [if_neg hak]

theorem hmGet_append_of_forall_ne (l1 l2 : Inventory) (k : String)
    (h : ∀ p ∈ l1, p.1 ≠ k) :
    hmGet (l1 ++ l2) k = hmGet l2 k := by
  induction l1 with
  | nil => rfl
  | cons r rest ih =>
    obtain ⟨rk, rv⟩ := r
    show (if rk = k then some rv else hmGet (rest ++ l2) k) = hmGet l2 k
    rw [if_neg (h (rk, rv) (List.mem_cons_self _ _))]
    exact ih (fun p hp => h p (List.mem_cons_of_mem _ hp))

/-! ## C1: membership characterization of the two output sets -/

/-- C1: over any two inventories, an IP enters `devices_to_register` exactly
when it is a key of the Netbox (source-of-truth) inventory and not a key of
the Netshot (config-management) inventory; it enters `devices_to_disable`
exactly when it is a key of the Netshot inventory and not of the Netbox one;
and an IP that is a key of both appears in neither list. -/
theorem reconciler_classifies_by_key_difference
    (nb ns : Inventory) (ip : String) :
    (ip ∈ devicesToRegister nb ns ↔ isKey nb ip ∧ ¬ isKey ns ip) ∧
    (ip ∈ devicesToDisable nb ns ↔ isKey ns ip ∧ ¬ isKey nb ip) ∧
    (isKey nb ip → isKey ns ip →
      ip ∉ devicesToRegister nb ns ∧ ip ∉ devicesToDisable nb ns) := by
  have hnb : isKey nb ip ↔ ∃ v, (ip, v) ∈ nb := isKey_iff nb ip
  have hns : isKey ns ip ↔ ∃ v, (ip, v) ∈ ns := isKey_iff ns ip
  have hreg := mem_devicesToRegister nb ns ip
  have hdis := mem_devicesToDisable nb ns ip
  have hnoneNs : hmGet ns ip = none ↔ ¬ isKey ns ip := by
    rw [← Option.not_isSome_iff_eq_none]; exact Iff.rfl
  have hnoneNb : hmGet nb ip = none ↔ ¬ isKey nb ip := by
    rw [← Option.not_isSome_iff_eq_none]; exact Iff.rfl
  refine ⟨?_, ?_, ?_⟩
  · rw [hreg, hnb, hnoneNs]
  · rw [hdis, hns, hnoneNb]
  · intro h1 h2
    constructor
    · rw [hreg, hnoneNs]; rintro ⟨-, hn⟩; exact hn h2
    · rw [hdis, hnoneNb]; rintro ⟨-, hn⟩; exact hn h1

/-- Witness for C1 on the §8 scenario inventories: `10.0.0.1` is registered,
`10.0.0.3` is disabled, and the shared `10.0.0.2` appears in neither. -/
theorem reconciler_classifies_by_key_difference_witness :
    "10.0.0.2" ∉ devicesToRegister
        [("10.0.0.1", "r1"), ("10.0.0.2", "r2")]
        [("10.0.0.2", "r2"), ("10.0.0.3", "r3")] ∧
    "10.0.0.2" ∉ devicesToDisable
        [("10.0.0.1", "r1"), ("10.0.0.2", "r2")]
        [("10.0.0.2", "r2"), ("10.0.0.3", "r3")] :=
  (reconciler_classifies_by_key_difference
    [("10.0.0.1", "r1"), ("10.0.0.2", "r2")]
    [("10.0.0.2", "r2"), ("10.0.0.3", "r3")] "10.0.0.2").2.2
    (by decide) (by decide)

/-! ## C2: CIDR-prefix stripping -/

/-- C2: a kept Netbox record contributes the first `/`-segment of its
`primary_ip4.address` as inventory key (with its label as value); the
address `"192.0.2.5/24"` normalizes to `"192.0.2.5"`; an address without
`'/'` is used unchanged. -/
theorem netbox_normalization_strips_cidr :
    (∀ (d : NetboxDevice) (x : NetboxIp), d.primary_ip4 = some x →
        hmGet (netboxSimplifiedDevices [d]) (firstSegment x.address)
          = some (netboxLabel d)) ∧
    firstSegment "192.0.2.5/24" = "192.0.2.5" ∧
    (∀ s : String, '/' ∉ s.data → firstSegment s = s) := by
  refine ⟨?_, by decide, ?_⟩
  · intro d x hx
    show hmGet (collectHM ([d].filterMap netboxPair)) (firstSegment x.address)
        = some (netboxLabel d)
    simp only [List.filterMap, netboxPair, hx]
    show hmGet (collectHM [(firstSegment x.address, netboxLabel d)]) _ = _
    have : collectHM [(firstSegment x.address, netboxLabel d)]
        = hmInsert [] (firstSegment x.address) (netboxLabel d) := rfl
    rw [this, hmGet_hmInsert_self]
  · intro s hs
    unfold firstSegment
    rw [firstSegmentChars_of_not_mem s.data hs]

/-- Witness for C2: the device with address `"192.0.2.5/24"` is keyed by the
bare IP `"192.0.2.5"`. -/
theorem netbox_normalization_strips_cidr_witness :
    firstSegment "192.0.2.5/24" = "192.0.2.5" ∧
    hmGet (netboxSimplifiedDevices [⟨7, some "sw1", some ⟨"192.0.2.5/24"⟩⟩])
      (firstSegment "192.0.2.5/24") = some "sw1" :=
  ⟨by decide,
   netbox_normalization_strips_cidr.1
     ⟨7, some "sw1", some ⟨"192.0.2.5/24"⟩⟩ ⟨"192.0.2.5/24"⟩ rfl⟩

/-! ## C3: non-empty keys (corrected) -/

/-- C3 counterexample: the claim that no inventory key is ever the empty
string is false on the code: a Netbox record whose `primary_ip4.address` is
the empty string is kept (its `primary_ip4` is present) and
`"".split("/").next().unwrap()` is `""`, so the inventory gains the key
`""`. -/
theorem inventory_keys_nonempty_counterexample :
    ¬ (∀ (devs : List NetboxDevice) (p : String × String),
        p ∈ netboxSimplifiedDevices devs → p.1 ≠ "") := by
  intro h
  exact h [⟨1, none, some ⟨""⟩⟩] ("", "1") (by decide) rfl

/-- C3 amended: a record without a usable IP (`primary_ip4` absent) is
dropped and produces no entry; every Netbox inventory key is the first
`/`-segment of a present address and every Netshot inventory key is a
management IP verbatim, so no key is empty **provided** every present
address has a non-empty first segment (Netbox) resp. every management IP is
non-empty (Netshot) — the code itself does not enforce non-emptiness. -/
theorem inventory_keys_nonempty_amended :
    (∀ (devs : List NetboxDevice),
        (∀ d ∈ devs, ∀ x, d.primary_ip4 = some x → firstSegment x.address ≠ "") →
        ∀ p ∈ netboxSimplifiedDevices devs, p.1 ≠ "") ∧
    (∀ (devs : List NetshotDevice),
        (∀ d ∈ devs, d.management_address.ip ≠ "") →
        ∀ p ∈ netshotSimplifiedInventory devs, p.1 ≠ "") := by
  constructor
  · intro devs hdevs p hp
    have hp' : p ∈ devs.filterMap netboxPair := mem_collectHM _ p hp
    rw [List.mem_filterMap] at hp'
    obtain ⟨d, hd, hpair⟩ := hp'
    unfold netboxPair at hpair
    cases hx : d.primary_ip4 with
    | none => rw [hx] at hpair; exact absurd hpair (by simp)
    | some x =>
      rw [hx] at hpair
      simp only [Option.some.injEq] at hpair
      have : p.1 = firstSegment x.address := by rw [← hpair]
      rw [this]
      exact hdevs d hd x hx
  · intro devs hdevs p hp
    have hp' : p ∈ devs.map (fun dev => (dev.management_address.ip, dev.name)) :=
      mem_collectHM _ p hp
    rw [List.mem_map] at hp'
    obtain ⟨d, hd, hpd⟩ := hp'
    have : p.1 = d.management_address.ip := by rw [← hpd]
    rw [this]
    exact hdevs d hd

/-- Witness for C3 (amended) on a concrete record with a non-empty
address. -/
theorem inventory_keys_nonempty_amended_witness :
    ("10.0.0.1", "a") ∈ netboxSimplifiedDevices
        [⟨1, some "a", some ⟨"10.0.0.1/24"⟩⟩] ∧
    ("10.0.0.1" : String) ≠ "" :=
  ⟨by decide,
   inventory_keys_nonempty_amended.1 [⟨1, some "a", some ⟨"10.0.0.1/24"⟩⟩]
     (by
       intro d hd x hx
       rw [List.mem_singleton] at hd
       subst hd
       simp only [Option.some.injEq] at hx
       subst hx
       decide)
     ("10.0.0.1", "a") (by decide)⟩

/-! ## C4: missing primary IP — skip, warn, name-else-id label -/

/-- C4: a Netbox record without `primary_ip4` contributes no inventory entry
(every entry originates in a record with a present `primary_ip4`), the skip
produces a warning labelled by the name-else-stringified-id rule, and the
same rule labels kept records; normalization is total, so no error is
raised. -/
theorem netbox_missing_ip_skipped_with_warning :
    (∀ (devs : List NetboxDevice) (p : String × String),
        p ∈ netboxSimplifiedDevices devs →
        ∃ d ∈ devs, ∃ x, d.primary_ip4 = some x ∧
          p = (firstSegment x.address, netboxLabel d)) ∧
    (∀ (devs : List NetboxDevice) (d : NetboxDevice),
        d ∈ devs → d.primary_ip4 = none → netboxLabel d ∈ netboxWarnings devs) ∧
    (∀ d : NetboxDevice,
        (∀ n, d.name = some n → netboxLabel d = n) ∧
        (d.name = none → netboxLabel d = toString d.id)) := by
  refine ⟨?_, ?_, ?_⟩
  · intro devs p hp
    have hp' : p ∈ devs.filterMap netboxPair := mem_collectHM _ p hp
    rw [List.mem_filterMap] at hp'
    obtain ⟨d, hd, hpair⟩ := hp'
    unfold netboxPair at hpair
    cases hx : d.primary_ip4 with
    | none => rw [hx] at hpair; exact absurd hpair (by simp)
    | some x =>
      rw [hx] at hpair
      simp only [Option.some.injEq] at hpair
      exact ⟨d, hd, x, hx, hpair.symm⟩
  · intro devs d hd hnone
    unfold netboxWarnings
    rw [List.mem_filterMap]
    exact ⟨d, hd, by rw [hnone]⟩
  · intro d
    constructor
    · intro n hn
      unfold netboxLabel
      rw [hn]
      rfl
    · intro hn
      unfold netboxLabel
      rw [hn]
      rfl

/-- Witness for C4: a device with id 5, no name and no primary IP produces
an empty inventory and the warning label `"5"`. -/
theorem netbox_missing_ip_skipped_with_warning_witness :
    netboxLabel ⟨5, none, none⟩ ∈ netboxWarnings [⟨5, none, none⟩] ∧
    netboxSimplifiedDevices [⟨5, none, none⟩] = [] ∧
    netboxLabel ⟨5, none, none⟩ = "5" :=
  ⟨netbox_missing_ip_skipped_with_warning.2.1 [⟨5, none, none⟩] ⟨5, none, none⟩
     (List.mem_singleton.mpr rfl) rfl,
   rfl, by decide⟩

/-! ## C5: duplicate IPs — last write wins, no error -/

/-- C5: when several records normalize to the same IP, the inventory maps
that IP to the label of the record that occurs later in iteration order: for
any prefix `devs` (which may contain records with the same IP), a record `d`
followed only by records with other IPs determines the mapping at its IP;
normalization is total, so the duplicate raises no error.  Stated for both
the Netbox and the Netshot normalizer. -/
theorem duplicate_ip_last_write_wins :
    (∀ (devs rest : List NetboxDevice) (d : NetboxDevice) (x : NetboxIp),
        d.primary_ip4 = some x →
        (∀ e ∈ rest, ∀ y, e.primary_ip4 = some y →
          firstSegment y.address ≠ firstSegment x.address) →
        hmGet (netboxSimplifiedDevices (devs ++ d :: rest))
          (firstSegment x.address) = some (netboxLabel d)) ∧
    (∀ (devs rest : List NetshotDevice) (d : NetshotDevice),
        (∀ e ∈ rest, e.management_address.ip ≠ d.management_address.ip) →
        hmGet (netshotSimplifiedInventory (devs ++ d :: rest))
          d.management_address.ip = some d.name) := by
  constructor
  · intro devs rest d x hx hrest
    have hpd : netboxPair d = some (firstSegment x.address, netboxLabel d) := by
      unfold netboxPair; rw [hx]
    have hkeys : ∀ p ∈ (rest.filterMap netboxPair).reverse,
        p.1 ≠ firstSegment x.address := by
      intro p hp
      rw [List.mem_reverse, List.mem_filterMap] at hp
      obtain ⟨e, he, hpair⟩ := hp
      unfold netboxPair at hpair
      cases hy : e.primary_ip4 with
      | none => rw [hy] at hpair; exact absurd hpair (by simp)
      | some y =>
        rw [hy] at hpair
        simp only [Option.some.injEq] at hpair
        rw [← hpair]
        exact hrest e he y hy
    have hfm : List.filterMap netboxPair (d :: rest)
        = (firstSegment x.address, netboxLabel d)
            :: List.filterMap netboxPair rest := by
      rw [List.filterMap_cons, hpd]
    unfold netboxSimplifiedDevices
    rw [hmGet_collectHM, List.filterMap_append, List.reverse_append, hfm,
      List.reverse_cons, List.append_assoc,
      hmGet_append_of_forall_ne _ _ _ hkeys]
    show (if firstSegment x.address = firstSegment x.address
        then some (netboxLabel d)
        else hmGet ((devs.filterMap netboxPair).reverse) (firstSegment x.address))
        = some (netboxLabel d)
    rw [if_pos rfl]
  · intro devs rest d hrest
    have hkeys : ∀ p ∈ (rest.map
          (fun dev => (dev.management_address.ip, dev.name))).reverse,
        p.1 ≠ d.management_address.ip := by
      intro p hp
      rw [List.mem_reverse, List.mem_map] at hp
      obtain ⟨e, he, hpe⟩ := hp
      rw [← hpe]
      exact hrest e he
    unfold netshotSimplifiedInventory
    rw [hmGet_collectHM, List.map_append, List.reverse_append, List.map_cons,
      List.reverse_cons, List.append_assoc,
      hmGet_append_of_forall_ne _ _ _ hkeys]
    show (if d.management_address.ip = d.management_address.ip
        then some d.name
        else hmGet ((devs.map
          (fun dev => (dev.management_address.ip, dev.name))).reverse)
          d.management_address.ip)
        = some d.name
    rw [if_pos rfl]

/-- Witness for C5: two Netbox records normalizing to `10.0.0.1`; the later
one (label `"new"`) wins and no error occurs. -/
theorem duplicate_ip_last_write_wins_witness :
    hmGet (netboxSimplifiedDevices
        [⟨1, some "old", some ⟨"10.0.0.1/24"⟩⟩,
         ⟨2, some "new", some ⟨"10.0.0.1/32"⟩⟩]) (firstSegment "10.0.0.1/32")
      = some "new" :=
  duplicate_ip_last_write_wins.1 [⟨1, some "old", some ⟨"10.0.0.1/24"⟩⟩] []
    ⟨2, some "new", some ⟨"10.0.0.1/32"⟩⟩ ⟨"10.0.0.1/32"⟩ rfl
    (by intro e he y hy hn; exact absurd he (List.not_mem_nil e))

/-! ## Orchestration model of `main` (lines 121-213)

The HTTP clients live outside `src/main.rs`; their call results are inputs
of the model (a `Clients` record of fetch results and per-IP action
results).  The control flow — `?`-propagation of fetch errors, inventory
building, comparison, count logging, the `if !opt.check` guard and the two
apply loops whose `Err` branch only logs a warning — is translated from
`main` itself. -/

/-- Results of the external client calls consumed by `main`: the three
listing fetches and the per-IP outcome of `register_device` /
`disable_device`. -/
structure Clients where
  netshotGetDevices : Except String (List NetshotDevice)
  netboxGetDevices : Except String (List NetboxDevice)
  netboxGetVms : Except String (List NetboxDevice)
  registerDevice : String → Except String Unit
  disableDevice : String → Except String Unit

/-- The CLI options `main` branches on: `--netbox-vms-filter` (presence
triggers the VM fetch and merge, lines 133-138) and `--check` (line 197). -/
structure RunOptions where
  netbox_vms_filter : Option String
  check : Bool
  deriving Repr, DecidableEq

/-- Observable outcome of one run: the classified lists, the two logged
counts (lines 188-195), and for each apply loop the attempted IPs in order
and the logged warning messages. -/
structure RunTrace where
  toRegister : List String
  toDisable : List String
  loggedCounts : Nat × Nat
  registerAttempts : List String
  registerFailures : List String
  disableAttempts : List String
  disableFailures : List String
  deriving Repr, DecidableEq

/-- Lines 131-138: fetch the Netbox devices (`?` aborts on error) and, when
`netbox_vms_filter` is set, fetch the VMs (`?` aborts on error) and append
them to the device list. -/
def mergedNetboxDevices (opt : RunOptions) (c : Clients) :
    Except String (List NetboxDevice) :=
  match c.netboxGetDevices with
  | Except.error e => Except.error e
  | Except.ok devs =>
    match opt.netbox_vms_filter with
    | some _ =>
      match c.netboxGetVms with
      | Except.error e => Except.error e
      | Except.ok vms => Except.ok (devs ++ vms)
    | none => Except.ok devs

/-- One iteration of an apply loop (lines 198-203 resp. 205-210): invoke
the action, record the attempt, and on `Err` record the warning — the loop
body never exits the loop. -/
def applyStep (act : String → Except String Unit)
    (acc : List String × List String) (ip : String) :
    List String × List String :=
  match act ip with
  | Except.ok _ => (acc.1 ++ [ip], acc.2)
  | Except.error e => (acc.1 ++ [ip], acc.2 ++ [e])

/-- A whole apply loop: the pair (attempted IPs in order, logged warning
messages). -/
def applyLoop (act : String → Except String Unit) (ips : List String) :
    List String × List String :=
  ips.foldl (applyStep act) ([], [])

/-- Lines 158-212 after both fetches succeeded: build nothing further,
compare the inventories, log the two counts, and unless `--check` is set
run the two apply loops. -/
def mainRunTrace (opt : RunOptions) (c : Clients)
    (netshotInv netboxInv : Inventory) : RunTrace :=
  let toReg := devicesToRegister netboxInv netshotInv
  let toDis := devicesToDisable netboxInv netshotInv
  if opt.check then
    ⟨toReg, toDis, (toReg.length, toDis.length), [], [], [], []⟩
  else
    let reg := applyLoop c.registerDevice toReg
    let dis := applyLoop c.disableDevice toDis
    ⟨toReg, toDis, (toReg.length, toDis.length), reg.1, reg.2, dis.1, dis.2⟩

/-- `main`, lines 121-213: Netshot fetch (`?`), Netbox fetch and optional
VM merge (`?`), normalization, comparison and apply phase; the final
`Ok(())` means a run that passes the fetches always returns success. -/
def mainRun (opt : RunOptions) (c : Clients) : Except String RunTrace :=
  match c.netshotGetDevices with
  | Except.error e => Except.error e
  | Except.ok netshotDevices =>
    match mergedNetboxDevices opt c with
    | Except.error e => Except.error e
    | Except.ok netboxDevices =>
      Except.ok (mainRunTrace opt c
        (netshotSimplifiedInventory netshotDevices)
        (netboxSimplifiedDevices netboxDevices))

/-! ## Helper lemmas for the orchestration model -/

theorem map_fst_replace (m : Inventory) (k v : String) :
    (m.map (fun p => if p.1 = k then (k, v) else p)).map Prod.fst
      = m.map Prod.fst := by
  induction m with
  | nil => rfl
  | cons r rest ih =>
    obtain ⟨rk, rv⟩ := r
    simp only [List.map_cons, ih]
    by_cases hr : rk = k
    · simp [hr]
    · simp [hr]

theorem keys_nodup_hmInsert (m : Inventory) (k v : String)
    (h : (m.map Prod.fst).Nodup) :
    ((hmInsert m k v).map Prod.fst).Nodup := by
  unfold hmInsert
  by_cases hany : m.any (fun p => p.1 = k)
  · rw [if_pos hany, map_fst_replace]
    exact h
  · rw [if_neg hany, List.map_append, List.map_singleton]
    refine List.nodup_append.mpr ⟨h, List.nodup_singleton k, ?_⟩
    intro a ha hak
    rw [List.mem_singleton] at hak
    subst hak
    rw [List.mem_map] at ha
    obtain ⟨p, hp, hpk⟩ := ha
    exact hany (List.any_eq_true.mpr ⟨p, hp, decide_eq_true hpk⟩)

theorem keys_nodup_collectHM (l : List (String × String)) :
    ((collectHM l).map Prod.fst).Nodup := by
  suffices H : ∀ acc : Inventory, (acc.map Prod.fst).Nodup →
      ((l.foldl (fun m kv => hmInsert m kv.1 kv.2) acc).map Prod.fst).Nodup from
    H [] List.nodup_nil
  induction l with
  | nil => intro acc h; exact h
  | cons q rest ih =>
    intro acc h
    exact ih (hmInsert acc q.1 q.2) (keys_nodup_hmInsert _ _ _ h)

theorem devicesToRegister_sublist (nb ns : Inventory) :
    List.Sublist (devicesToRegister nb ns) (nb.map Prod.fst) := by
  induction nb with
  | nil => exact List.Sublist.refl _
  | cons p rest ih =>
    rcases hg : hmGet ns p.1 with _ | w
    · have hred : devicesToRegister (p :: rest) ns
          = p.1 :: devicesToRegister rest ns := by
        simp only [devicesToRegister, List.filterMap_cons, hg]
      rw [hred, List.map_cons]
      exact List.Sublist.cons₂ p.1 ih
    · have hred : devicesToRegister (p :: rest) ns
          = devicesToRegister rest ns := by
        simp only [devicesToRegister, List.filterMap_cons, hg]
      rw [hred, List.map_cons]
      exact List.Sublist.cons p.1 ih

theorem devicesToDisable_sublist (nb ns : Inventory) :
    List.Sublist (devicesToDisable nb ns) (ns.map Prod.fst) := by
  induction ns with
  | nil => exact List.Sublist.refl _
  | cons p rest ih =>
    rcases hg : hmGet nb p.1 with _ | w
    · have hred : devicesToDisable nb (p :: rest)
          = p.1 :: devicesToDisable nb rest := by
        simp only [devicesToDisable, List.filterMap_cons, hg]
      rw [hred, List.map_cons]
      exact List.Sublist.cons₂ p.1 ih
    · have hred : devicesToDisable nb (p :: rest)
          = devicesToDisable nb rest := by
        simp only [devicesToDisable, List.filterMap_cons, hg]
      rw [hred, List.map_cons]
      exact List.Sublist.cons p.1 ih

theorem foldl_applyStep_fst (act : String → Except String Unit)
    (ips : List String) :
    ∀ acc, (ips.foldl (applyStep act) acc).1 = acc.1 ++ ips := by
  induction ips with
  | nil => intro acc; rw [List.foldl_nil, List.append_nil]
  | cons ip rest ih =>
    intro acc
    rw [List.foldl_cons, ih (applyStep act acc ip)]
    have hstep : (applyStep act acc ip).1 = acc.1 ++ [ip] := by
      unfold applyStep
      cases act ip <;> rfl
    rw [hstep, List.append_assoc, List.singleton_append]

/-- The apply loops attempt every classified IP, in order, whatever the
per-IP results are: one failure never aborts the batch. -/
theorem applyLoop_fst (act : String → Except String Unit) (ips : List String) :
    (applyLoop act ips).1 = ips := by
  unfold applyLoop
  rw [foldl_applyStep_fst, List.nil_append]

theorem mem_applyStep_snd (act : String → Except String Unit)
    (acc : List String × List String) (ip x : String) (h : x ∈ acc.2) :
    x ∈ (applyStep act acc ip).2 := by
  unfold applyStep
  cases act ip with
  | ok _ => exact h
  | error e => exact List.mem_append_left _ h

theorem mem_foldl_applyStep_snd (act : String → Except String Unit)
    (ips : List String) (x : String) :
    ∀ acc, x ∈ acc.2 → x ∈ (ips.foldl (applyStep act) acc).2 := by
  induction ips with
  | nil => intro acc h; exact h
  | cons ip rest ih =>
    intro acc h
    exact ih _ (mem_applyStep_snd act acc ip x h)

/-- A failing action's error message is recorded (logged as a warning). -/
theorem applyLoop_failure_mem (act : String → Except String Unit)
    (ip e : String) (he : act ip = Except.error e) :
    ∀ (ips : List String), ip ∈ ips → e ∈ (applyLoop act ips).2 := by
  suffices H : ∀ (ips : List String) (acc : List String × List String),
      ip ∈ ips → e ∈ (ips.foldl (applyStep act) acc).2 from
    fun ips hip => H ips ([], []) hip
  intro ips
  induction ips with
  | nil => intro acc h; exact absurd h (List.not_mem_nil ip)
  | cons q rest ih =>
    intro acc hip
    rw [List.foldl_cons]
    rcases List.mem_cons.mp hip with h | h
    · apply mem_foldl_applyStep_snd
      have hstep : (applyStep act acc q).2 = acc.2 ++ [e] := by
        unfold applyStep
        rw [← h, he]
      rw [hstep]
      exact List.mem_append_right _ (List.mem_singleton.mpr rfl)
    · exact ih (applyStep act acc q) h

/-! ## Example run fixtures (the §8 scenario of the spec) -/

def exampleNetshotDevices : List NetshotDevice :=
  [⟨"r2", ⟨"10.0.0.2"⟩⟩, ⟨"r3", ⟨"10.0.0.3"⟩⟩]

def exampleNetboxDevices : List NetboxDevice :=
  [⟨1, some "r1", some ⟨"10.0.0.1/24"⟩⟩, ⟨2, some "r2", some ⟨"10.0.0.2/24"⟩⟩]

def exampleClients : Clients :=
  ⟨Except.ok exampleNetshotDevices, Except.ok exampleNetboxDevices,
   Except.ok [],
   fun ip => if ip = "10.0.0.1" then Except.error "boom" else Except.ok (),
   fun _ => Except.ok ()⟩

def exampleClientsNetshotDown : Clients :=
  ⟨Except.error "netshot down", Except.ok [], Except.ok [],
   fun _ => Except.ok (), fun _ => Except.ok ()⟩

def exampleOptCheck : RunOptions := ⟨none, true⟩

def exampleOptApply : RunOptions := ⟨none, false⟩

/-! ## C6: check (dry-run) mode computes but never applies -/

/-- C6: with `--check` set, a run whose fetches succeed returns the
classified sets and their logged counts but performs zero register and zero
disable attempts; and the classified sets equal those of the identical run
with `--check` unset. -/
theorem check_mode_skips_apply (opt : RunOptions) (c : Clients)
    (nsd : List NetshotDevice) (nbd : List NetboxDevice)
    (hns : c.netshotGetDevices = Except.ok nsd)
    (hnb : mergedNetboxDevices opt c = Except.ok nbd)
    (hcheck : opt.check = true) :
    mainRun opt c = Except.ok
      ⟨devicesToRegister (netboxSimplifiedDevices nbd)
          (netshotSimplifiedInventory nsd),
       devicesToDisable (netboxSimplifiedDevices nbd)
          (netshotSimplifiedInventory nsd),
       ((devicesToRegister (netboxSimplifiedDevices nbd)
          (netshotSimplifiedInventory nsd)).length,
        (devicesToDisable (netboxSimplifiedDevices nbd)
          (netshotSimplifiedInventory nsd)).length),
       [], [], [], []⟩ ∧
    (∀ t', mainRun ⟨opt.netbox_vms_filter, false⟩ c = Except.ok t' →
      t'.toRegister = devicesToRegister (netboxSimplifiedDevices nbd)
          (netshotSimplifiedInventory nsd) ∧
      t'.toDisable = devicesToDisable (netboxSimplifiedDevices nbd)
          (netshotSimplifiedInventory nsd)) := by
  have h1 : mainRun opt c = Except.ok (mainRunTrace opt c
      (netshotSimplifiedInventory nsd) (netboxSimplifiedDevices nbd)) := by
    unfold mainRun
    rw [hns, hnb]
  constructor
  · rw [h1]
    unfold mainRunTrace
    rw [hcheck]
    rfl
  · have hnb' : mergedNetboxDevices ⟨opt.netbox_vms_filter, false⟩ c
        = Except.ok nbd := hnb
    have h2 : mainRun ⟨opt.netbox_vms_filter, false⟩ c
        = Except.ok (mainRunTrace ⟨opt.netbox_vms_filter, false⟩ c
          (netshotSimplifiedInventory nsd) (netboxSimplifiedDevices nbd)) := by
      unfold mainRun
      rw [hns, hnb']
    intro t' ht'
    rw [h2] at ht'
    injection ht' with ht'
    rw [← ht']
    exact ⟨rfl, rfl⟩

/-- Witness for C6 on the §8 scenario: `toRegister = [10.0.0.1]`,
`toDisable = [10.0.0.3]`, counts `(1, 1)`, zero attempts of either kind. -/
theorem check_mode_skips_apply_witness :
    mainRun exampleOptCheck exampleClients
      = Except.ok ⟨["10.0.0.1"], ["10.0.0.3"], (1, 1), [], [], [], []⟩ :=
  (check_mode_skips_apply exampleOptCheck exampleClients
    exampleNetshotDevices exampleNetboxDevices rfl rfl rfl).1

/-! ## C7: apply phase attempts every classified IP exactly once -/

/-- C7: with `--check` unset, a run whose fetches succeed still returns
success whatever the per-IP action results are; every IP of `toRegister`
(resp. `toDisable`) is attempted exactly once, and a failing action's error
is recorded as a warning while the remaining IPs are still attempted. -/
theorem apply_phase_attempts_each_ip_once (opt : RunOptions) (c : Clients)
    (nsd : List NetshotDevice) (nbd : List NetboxDevice)
    (hns : c.netshotGetDevices = Except.ok nsd)
    (hnb : mergedNetboxDevices opt c = Except.ok nbd)
    (hcheck : opt.check = false) :
    (mainRun opt c).isOk = true ∧
    ∀ t, mainRun opt c = Except.ok t →
      t.registerAttempts = t.toRegister ∧
      t.disableAttempts = t.toDisable ∧
      (∀ ip ∈ t.toRegister, t.registerAttempts.count ip = 1) ∧
      (∀ ip ∈ t.toDisable, t.disableAttempts.count ip = 1) ∧
      (∀ ip e, ip ∈ t.toRegister → c.registerDevice ip = Except.error e →
        e ∈ t.registerFailures) ∧
      (∀ ip e, ip ∈ t.toDisable → c.disableDevice ip = Except.error e →
        e ∈ t.disableFailures) := by
  have h1 : mainRun opt c = Except.ok (mainRunTrace opt c
      (netshotSimplifiedInventory nsd) (netboxSimplifiedDevices nbd)) := by
    unfold mainRun
    rw [hns, hnb]
  have htr : mainRunTrace opt c (netshotSimplifiedInventory nsd)
        (netboxSimplifiedDevices nbd)
      = ⟨devicesToRegister (netboxSimplifiedDevices nbd)
            (netshotSimplifiedInventory nsd),
         devicesToDisable (netboxSimplifiedDevices nbd)
            (netshotSimplifiedInventory nsd),
         ((devicesToRegister (netboxSimplifiedDevices nbd)
            (netshotSimplifiedInventory nsd)).length,
          (devicesToDisable (netboxSimplifiedDevices nbd)
            (netshotSimplifiedInventory nsd)).length),
         (applyLoop c.registerDevice (devicesToRegister
            (netboxSimplifiedDevices nbd) (netshotSimplifiedInventory nsd))).1,
         (applyLoop c.registerDevice (devicesToRegister
            (netboxSimplifiedDevices nbd) (netshotSimplifiedInventory nsd))).2,
         (applyLoop c.disableDevice (devicesToDisable
            (netboxSimplifiedDevices nbd) (netshotSimplifiedInventory nsd))).1,
         (applyLoop c.disableDevice (devicesToDisable
            (netboxSimplifiedDevices nbd) (netshotSimplifiedInventory nsd))).2⟩ := by
    unfold mainRunTrace
    rw [hcheck]
    rfl
  have hnodupReg : (devicesToRegister (netboxSimplifiedDevices nbd)
      (netshotSimplifiedInventory nsd)).Nodup :=
    (keys_nodup_collectHM (nbd.filterMap netboxPair)).sublist
      (devicesToRegister_sublist _ _)
  have hnodupDis : (devicesToDisable (netboxSimplifiedDevices nbd)
      (netshotSimplifiedInventory nsd)).Nodup := by
    have h := keys_nodup_collectHM
      (nsd.map (fun dev => (dev.management_address.ip, dev.name)))
    exact h.sublist (devicesToDisable_sublist _ _)
  refine ⟨by rw [h1]; rfl, ?_⟩
  intro t ht
  rw [h1, htr] at ht
  injection ht with ht
  rw [← ht]
  refine ⟨applyLoop_fst _ _, applyLoop_fst _ _, ?_, ?_, ?_, ?_⟩
  · intro ip hip
    simp only [applyLoop_fst]
    exact List.count_eq_one_of_mem hnodupReg hip
  · intro ip hip
    simp only [applyLoop_fst]
    exact List.count_eq_one_of_mem hnodupDis hip
  · intro ip e hip he
    exact applyLoop_failure_mem c.registerDevice ip e he _ hip
  · intro ip e hip he
    exact applyLoop_failure_mem c.disableDevice ip e he _ hip

/-- Witness for C7: with `register("10.0.0.1")` failing, the run still
returns success. -/
theorem apply_phase_attempts_each_ip_once_witness :
    (mainRun exampleOptApply exampleClients).isOk = true :=
  (apply_phase_attempts_each_ip_once exampleOptApply exampleClients
    exampleNetshotDevices exampleNetboxDevices rfl rfl rfl).1

/-! ## C8: a failing fetch aborts the whole run -/

/-- C8: if the Netshot device fetch, the Netbox device fetch, or (when the
VM filter is set) the Netbox VM fetch fails, `main` returns that error
immediately: no trace is produced, so no reconciliation result exists and
no register or disable action is attempted. -/
theorem fetch_failure_aborts_run (opt : RunOptions) (c : Clients)
    (e : String) :
    (c.netshotGetDevices = Except.error e → mainRun opt c = Except.error e) ∧
    (∀ nsd, c.netshotGetDevices = Except.ok nsd →
      c.netboxGetDevices = Except.error e →
      mainRun opt c = Except.error e) ∧
    (∀ nsd nbd f, c.netshotGetDevices = Except.ok nsd →
      c.netboxGetDevices = Except.ok nbd →
      opt.netbox_vms_filter = some f →
      c.netboxGetVms = Except.error e →
      mainRun opt c = Except.error e) := by
  refine ⟨?_, ?_, ?_⟩
  · intro hns
    unfold mainRun
    rw [hns]
  · intro nsd hns hnb
    unfold mainRun mergedNetboxDevices
    rw [hns, hnb]
  · intro nsd nbd f hns hnb hf hvms
    unfold mainRun mergedNetboxDevices
    rw [hns, hnb, hf, hvms]

/-- Witness for C8: a failing Netshot fetch aborts the run with its
error. -/
theorem fetch_failure_aborts_run_witness :
    mainRun exampleOptApply exampleClientsNetshotDown
      = Except.error "netshot down" :=
  (fetch_failure_aborts_run exampleOptApply exampleClientsNetshotDown
    "netshot down").1 rfl

/-! ## C9: reconciliation is pure, deterministic and order-independent -/

/-- C9: reconciliation is a pure function of the two inventories — running
it twice yields the identical pair of lists (in the embedding the
comparison loops are a function, and the source loops only read the two
`HashMap`s through `get`, mutating neither) — and its results, as sets, do
not depend on the iteration order of the mappings: permuting either
inventory leaves membership in both output sets unchanged. -/
theorem reconciliation_pure_and_order_independent
    (nb ns nb' ns' : Inventory) :
    (devicesToRegister nb ns, devicesToDisable nb ns)
      = (devicesToRegister nb ns, devicesToDisable nb ns) ∧
    (nb.Perm nb' → ns.Perm ns' →
      ∀ ip, (ip ∈ devicesToRegister nb ns ↔ ip ∈ devicesToRegister nb' ns') ∧
        (ip ∈ devicesToDisable nb ns ↔ ip ∈ devicesToDisable nb' ns')) := by
  refine ⟨rfl, ?_⟩
  intro hnb hns ip
  have hget : ∀ (a b : Inventory), a.Perm b →
      (hmGet a ip = none ↔ hmGet b ip = none) := by
    intro a b hab
    rw [hmGet_eq_none_iff, hmGet_eq_none_iff]
    constructor
    · intro h v hv
      exact h v (hab.mem_iff.mpr hv)
    · intro h v hv
      exact h v (hab.mem_iff.mp hv)
  have hkeys : ∀ (a b : Inventory), a.Perm b →
      ((∃ v, (ip, v) ∈ a) ↔ ∃ v, (ip, v) ∈ b) := by
    intro a b hab
    constructor
    · rintro ⟨v, hv⟩
      exact ⟨v, hab.mem_iff.mp hv⟩
    · rintro ⟨v, hv⟩
      exact ⟨v, hab.mem_iff.mpr hv⟩
  constructor
  · rw [mem_devicesToRegister, mem_devicesToRegister, hkeys nb nb' hnb,
      hget ns ns' hns]
  · rw [mem_devicesToDisable, mem_devicesToDisable, hkeys ns ns' hns,
      hget nb nb' hnb]

/-- Witness for C9: permuting the Netbox inventory does not change whether
`10.0.0.1` is classified for registration. -/
theorem reconciliation_pure_and_order_independent_witness :
    "10.0.0.1" ∈ devicesToRegister
        [("10.0.0.1", "r1"), ("10.0.0.2", "r2")] [("10.0.0.2", "r2")] ↔
    "10.0.0.1" ∈ devicesToRegister
        [("10.0.0.2", "r2"), ("10.0.0.1", "r1")] [("10.0.0.2", "r2")] :=
  ((reconciliation_pure_and_order_independent
      [("10.0.0.1", "r1"), ("10.0.0.2", "r2")] [("10.0.0.2", "r2")]
      [("10.0.0.2", "r2"), ("10.0.0.1", "r1")] [("10.0.0.2", "r2")]).2
    (by decide) (by decide) "10.0.0.1").1

/-! ## C10: classification depends only on the key sets -/

/-- C10: two pairs of inventories with the same key sets — labels
arbitrary — classify every IP identically: membership in `toRegister` and
`toDisable` is unchanged. -/
theorem classification_depends_only_on_keys (nb ns nb' ns' : Inventory)
    (hnb : ∀ k, isKey nb k ↔ isKey nb' k)
    (hns : ∀ k, isKey ns k ↔ isKey ns' k) :
    ∀ ip, (ip ∈ devicesToRegister nb ns ↔ ip ∈ devicesToRegister nb' ns') ∧
      (ip ∈ devicesToDisable nb ns ↔ ip ∈ devicesToDisable nb' ns') := by
  intro ip
  have hget : ∀ (a b : Inventory), (∀ k, isKey a k ↔ isKey b k) →
      (hmGet a ip = none ↔ hmGet b ip = none) := by
    intro a b hab
    have h1 := hab ip
    unfold isKey at h1
    constructor
    · intro h
      cases hb : hmGet b ip with
      | none => rfl
      | some w =>
        exfalso
        have h2 : (hmGet a ip).isSome = true := h1.mpr (by rw [hb]; rfl)
        rw [h] at h2
        simp at h2
    · intro h
      cases ha : hmGet a ip with
      | none => rfl
      | some w =>
        exfalso
        have h2 : (hmGet b ip).isSome = true := h1.mp (by rw [ha]; rfl)
        rw [h] at h2
        simp at h2
  constructor
  · rw [mem_devicesToRegister, mem_devicesToRegister, ← isKey_iff, ← isKey_iff,
      hnb ip, hget ns ns' hns]
  · rw [mem_devicesToDisable, mem_devicesToDisable, ← isKey_iff, ← isKey_iff,
      hns ip, hget nb nb' hnb]

/-- Witness for C10: replacing the label `"r1"` with `"ZZZ"` changes
nothing about the classification of `10.0.0.1`. -/
theorem classification_depends_only_on_keys_witness :
    "10.0.0.1" ∈ devicesToRegister [("10.0.0.1", "r1")] [] ↔
    "10.0.0.1" ∈ devicesToRegister [("10.0.0.1", "ZZZ")] [] :=
  (classification_depends_only_on_keys [("10.0.0.1", "r1")] []
    [("10.0.0.1", "ZZZ")] []
    (by
      intro k
      unfold isKey hmGet
      by_cases h : "10.0.0.1" = k
      · rw [if_pos h, if_pos h]
        exact Iff.rfl
      · rw [if_neg h, if_neg h])
    (fun k => Iff.rfl) "10.0.0.1").1

end Netbox2Netshot

